import Mathlib

/-!
Shallow embedding of the `pagerank` Go package (carbocation/pagerank).

The package computes approximate PageRank by repeated random walks:
`Graph` holds a caller-owned ordered node collection, an edge-resolution
function `edgesFor`, a seeded random source, a cached traversal total and
three flags (`jumpProbability`, `calculated`, `summed`).  `Calculate`
starts `RoundsPerNode` walks at every starter node; each walk increments
the visited node's counter, then terminates with probability
`jumpProbability`, at dead ends, or continues to a uniformly chosen
out-neighbour.  `Pagerank` queries the accumulated counts.

Modelling choices:
* Nodes are identified by natural-number ids; the per-node traversal
  counters (held inside the caller's node objects in Go) are a function
  `counts : Nat → Nat`, reduced mod 2^64 like Go's `uint64`.
* The random source `rand.Rand` is an abstract state type `ρ` with two
  operations, `float32` (a draw in `[0,1)`, modelled as a rational) and
  `intn`; `RngLawful` records the range guarantees of Go's `math/rand`.
* Go `float32`/`float64` arithmetic in `Pagerank` is modelled exactly
  over `ℚ` (so `x / 0 = 0` where Go would produce NaN/Inf).
* The possibly non-terminating recursion `traverseFrom` takes fuel and
  returns `none` when the fuel is exhausted (Go would still be running).
-/

/-- Go `uint64` wrap-around. -/
def u64 (n : Nat) : Nat := n % 2 ^ 64

/-- Abstract interface of `*rand.Rand`: both draws advance the same
underlying state, exactly as Go's single stream does. -/
structure RngOps (ρ : Type) where
  float32 : ρ → Rat × ρ
  intn : ρ → Nat → Nat × ρ

/-- The range guarantees documented for `math/rand`: `Float32` draws lie
in `[0,1)` and `Intn n` (for `n > 0`) lies in `[0,n)`. -/
structure RngLawful {ρ : Type} (ops : RngOps ρ) : Prop where
  float32_nonneg : ∀ r : ρ, 0 ≤ (ops.float32 r).1
  float32_lt_one : ∀ r : ρ, (ops.float32 r).1 < 1
  intn_lt : ∀ (r : ρ) (n : Nat), 0 < n → (ops.intn r n).1 < n

/-- The Go `Graph` struct.  `nodes` is the caller-owned ordered
collection of node handles, `starter` the per-node `IsStarter()` flag,
`edgesFor` the caller-supplied edge resolver, and `counts` the per-node
traversal counters living inside the caller's node objects. -/
structure Graph (ρ : Type) where
  nodes : List Nat
  starter : Nat → Bool
  edgesFor : Nat → List Nat
  counts : Nat → Nat
  rng : ρ
  traversals : Nat
  jumpProbability : Rat
  calculated : Bool
  summed : Bool

/-- Constructor `NewGraph(seed, edgesFor, nodes)`: the random source is
seeded (here: an initial rng state), the caller's collection and resolver
are stored, and all unexported fields take Go's zero values. -/
def NewGraph {ρ : Type} (seed : ρ) (edgesFor : Nat → List Nat)
    (nodes : List Nat) (starter : Nat → Bool) (counts : Nat → Nat) : Graph ρ :=
  { nodes := nodes, starter := starter, edgesFor := edgesFor, counts := counts,
    rng := seed, traversals := 0, jumpProbability := 0,
    calculated := false, summed := false }

/-- Method `node.Traverse()`: atomically increment the node's `uint64`
counter. -/
def Graph.traverse {ρ : Type} (g : Graph ρ) (node : Nat) : Graph ρ :=
  { g with counts := fun i => if i = node then u64 (g.counts node + 1) else g.counts i }

/-- Method `(*Graph).traverseFrom`: visit the node, draw a float, stop if it is
below `jumpProbability`, stop at a dead end, otherwise recurse into a
randomly chosen out-neighbour.  `none` models running out of fuel. -/
def traverseFrom {ρ : Type} (ops : RngOps ρ) :
    Nat → Graph ρ → Nat → Option (Graph ρ)
  | 0, _, _ => none
  | fuel + 1, g, node =>
    let g1 := g.traverse node
    let d := ops.float32 g1.rng
    let g2 := { g1 with rng := d.2 }
    if d.1 < g2.jumpProbability then
      some g2
    else
      let outlinks := g2.edgesFor node
      if outlinks.length < 1 then
        some g2
      else
        let k := ops.intn g2.rng outlinks.length
        traverseFrom ops fuel { g2 with rng := k.2 } (outlinks.getD k.1 0)

/-- The inner `for round := 0; round < RoundsPerNode; round++` loop of
`Calculate`: run `rounds` successive walks from `node`. -/
def walkRounds {ρ : Type} (ops : RngOps ρ) (fuel : Nat) (node : Nat) :
    Nat → Graph ρ → Option (Graph ρ)
  | 0, g => some g
  | rounds + 1, g =>
    match traverseFrom ops fuel g node with
    | none => none
    | some g' => walkRounds ops fuel node rounds g'

/-- The outer `for _, node := range *g.nodes` loop of `Calculate`:
non-starter nodes are skipped, starters get `rounds` walks each. -/
def calcNodes {ρ : Type} (ops : RngOps ρ) (fuel rounds : Nat) :
    List Nat → Graph ρ → Option (Graph ρ)
  | [], g => some g
  | node :: rest, g =>
    if g.starter node then
      match walkRounds ops fuel node rounds g with
      | none => none
      | some g' => calcNodes ops fuel rounds rest g'
    else
      calcNodes ops fuel rounds rest g

/-- Method `(*Graph).Calculate(JumpProbability, RoundsPerNode)`: store the jump
probability, walk from every starter node in collection order, then set
`calculated`.  `RoundsPerNode` is a Go `int`; a non-positive value makes
the round loop run zero times. -/
def Calculate {ρ : Type} (ops : RngOps ρ) (fuel : Nat) (g : Graph ρ)
    (JumpProbability : Rat) (RoundsPerNode : Int) : Option (Graph ρ) :=
  let g0 := { g with jumpProbability := JumpProbability }
  Option.map (fun g' => { g' with calculated := true })
    (calcNodes ops fuel RoundsPerNode.toNat g0.nodes g0)

/-- The error message of `Pagerank` on an uncalculated graph. -/
def notCalculatedMsg : String := "Pagerank graph has not yet been calculated"

/-- The summing loop of `Pagerank` (`g.traversals += node.Traversals()`
over the whole collection) as a fold, with `uint64` wrap-around. -/
def sumLoop (counts : Nat → Nat) (nodes : List Nat) (acc : Nat) : Nat :=
  nodes.foldl (fun a i => u64 (a + counts i)) acc

/-- Method `(*Graph).Pagerank(node, normalized)`: error if not calculated;
lazily cache the traversal total; return the (normalized) score together
with a `nil` error.  The Go `(float32, error)` pair is modelled as
`Rat × Option String`; the mutated receiver is returned alongside. -/
def Pagerank {ρ : Type} (g : Graph ρ) (node : Nat) (normalized : Bool) :
    (Rat × Option String) × Graph ρ :=
  if !g.calculated then
    ((0, some notCalculatedMsg), g)
  else
    let g1 :=
      if !g.summed then
        { g with traversals := sumLoop g.counts g.nodes g.traversals, summed := true }
      else g
    if normalized then
      (((g1.counts node : Rat) / (g1.traversals : Rat), none), g1)
    else
      (((g1.nodes.length : Rat) * (g1.counts node : Rat) / (g1.traversals : Rat), none), g1)

/-! Specification-side definitions (phrased from the spec's words, to be
compared with the embedded code). -/

/-- Modelled from the spec: the sequence of walk origins `Calculate`
should use — every starter node of the collection, in collection order,
repeated `roundsPerNode` times. -/
def walkOrigins {ρ : Type} (g : Graph ρ) (rounds : Nat) : List Nat :=
  (g.nodes.filter g.starter).flatMap (fun n => List.replicate rounds n)

/-- Modelled from the spec: run one walk from each origin in sequence. -/
def runWalks {ρ : Type} (ops : RngOps ρ) (fuel : Nat) :
    List Nat → Graph ρ → Option (Graph ρ)
  | [], g => some g
  | o :: rest, g =>
    match traverseFrom ops fuel g o with
    | none => none
    | some g' => runWalks ops fuel rest g'

/-- Modelled from the spec: "the total traversal count over all nodes",
the plain sum of `node.Traversals()` over the collection. -/
def specTotal {ρ : Type} (g : Graph ρ) : Nat :=
  (g.nodes.map g.counts).sum

/-! Concrete fixtures used by witnesses and counterexamples. -/

/-- A trivial lawful random source: every float draw is `1/2`, every
`Intn` draw is `0`. -/
def opsW : RngOps Unit :=
  { float32 := fun _ => (1/2, ()), intn := fun _ _ => (0, ()) }

/-- A single starter node `0` with no outgoing edges and a fresh counter. -/
def gDead : Graph Unit :=
  NewGraph () (fun _ => []) [0] (fun _ => true) (fun _ => 0)

/-- Two isolated nodes: `0` is a starter, `1` is not. -/
def gMix : Graph Unit :=
  NewGraph () (fun _ => []) [0, 1] (fun i => i == 0) (fun _ => 0)

/-- The edge resolver of the 3-cycle `0 → 1 → 2 → 0`. -/
def cycleEdgesFor : Nat → List Nat :=
  fun i => if i = 0 then [1] else if i = 1 then [2] else if i = 2 then [0] else []

/-- The 3-cycle graph with all nodes starters and fresh zero counters. -/
def gCycle {ρ : Type} (seed : ρ) : Graph ρ :=
  NewGraph seed cycleEdgesFor [0, 1, 2] (fun _ => true) (fun _ => 0)

/-- State of `gDead` after `Calculate(0, 0)`: calculated, but no walk was
ever started, so every counter and the total are zero. -/
def gZero : Graph Unit := (Calculate opsW 1 gDead 0 0).getD gDead

/-- State of `gDead` after a first `Calculate(0, 1)`. -/
def gStale1 : Graph Unit := (Calculate opsW 1 gDead 0 1).getD gDead

/-- State after the first `Pagerank` query has cached the total. -/
def gStale2 : Graph Unit := (Pagerank gStale1 0 true).2

/-- State after a second `Calculate(0, 1)`: the node's counter is `2` but
the cached total is still `1`. -/
def gStale3 : Graph Unit := (Calculate opsW 1 gStale2 0 1).getD gDead

/-! Helper lemmas. -/

/-- The fixture random source satisfies the `math/rand` range contract. -/
theorem opsW_lawful : RngLawful opsW := by
  refine ⟨fun r => ?_, fun r => ?_, fun r n hn => ?_⟩
  · show (0 : Rat) ≤ 1/2
    norm_num
  · show (1/2 : Rat) < 1
    norm_num
  · exact hn

/-- A walk never touches the collection, the starter flags, the edge
resolver, the cached total, the jump probability, or the two flags: it
only mutates counters and the random source. -/
theorem traverseFrom_frame {ρ : Type} (ops : RngOps ρ) :
    ∀ (fuel : Nat) (g : Graph ρ) (node : Nat) (g' : Graph ρ),
      traverseFrom ops fuel g node = some g' →
      g'.nodes = g.nodes ∧ g'.starter = g.starter ∧ g'.edgesFor = g.edgesFor ∧
      g'.traversals = g.traversals ∧ g'.jumpProbability = g.jumpProbability ∧
      g'.calculated = g.calculated ∧ g'.summed = g.summed := by
  intro fuel
  induction fuel with
  | zero => intro g node g' h; simp [traverseFrom] at h
  | succ n ih =>
    intro g node g' h
    simp only [traverseFrom] at h
    split at h
    · rw [Option.some.injEq] at h
      subst h
      exact ⟨rfl, rfl, rfl, rfl, rfl, rfl, rfl⟩
    · split at h
      · rw [Option.some.injEq] at h
        subst h
        exact ⟨rfl, rfl, rfl, rfl, rfl, rfl, rfl⟩
      · obtain ⟨f1, f2, f3, f4, f5, f6, f7⟩ := ih _ _ _ h
        exact ⟨f1, f2, f3, f4, f5, f6, f7⟩

/-- The round loop preserves the same fields as a single walk. -/
theorem walkRounds_frame {ρ : Type} (ops : RngOps ρ) (fuel node : Nat) :
    ∀ (rounds : Nat) (g : Graph ρ) (g' : Graph ρ),
      walkRounds ops fuel node rounds g = some g' →
      g'.nodes = g.nodes ∧ g'.starter = g.starter ∧ g'.edgesFor = g.edgesFor ∧
      g'.traversals = g.traversals ∧ g'.jumpProbability = g.jumpProbability ∧
      g'.calculated = g.calculated ∧ g'.summed = g.summed := by
  intro rounds
  induction rounds with
  | zero =>
    intro g g' h
    rw [walkRounds, Option.some.injEq] at h
    subst h
    exact ⟨rfl, rfl, rfl, rfl, rfl, rfl, rfl⟩
  | succ r ih =>
    intro g g' h
    rw [walkRounds] at h
    cases hw : traverseFrom ops fuel g node with
    | none => rw [hw] at h; exact absurd h (by simp)
    | some gm =>
      rw [hw] at h
      obtain ⟨e1, e2, e3, e4, e5, e6, e7⟩ := traverseFrom_frame ops fuel g node gm hw
      obtain ⟨f1, f2, f3, f4, f5, f6, f7⟩ := ih gm g' h
      exact ⟨f1.trans e1, f2.trans e2, f3.trans e3, f4.trans e4,
        f5.trans e5, f6.trans e6, f7.trans e7⟩

/-- The node loop of `Calculate` preserves the same fields. -/
theorem calcNodes_frame {ρ : Type} (ops : RngOps ρ) (fuel rounds : Nat) :
    ∀ (l : List Nat) (g : Graph ρ) (g' : Graph ρ),
      calcNodes ops fuel rounds l g = some g' →
      g'.nodes = g.nodes ∧ g'.starter = g.starter ∧ g'.edgesFor = g.edgesFor ∧
      g'.traversals = g.traversals ∧ g'.jumpProbability = g.jumpProbability ∧
      g'.calculated = g.calculated ∧ g'.summed = g.summed := by
  intro l
  induction l with
  | nil =>
    intro g g' h
    rw [calcNodes, Option.some.injEq] at h
    subst h
    exact ⟨rfl, rfl, rfl, rfl, rfl, rfl, rfl⟩
  | cons node rest ih =>
    intro g g' h
    rw [calcNodes] at h
    by_cases hs : g.starter node
    · rw [if_pos hs] at h
      cases hw : walkRounds ops fuel node rounds g with
      | none => rw [hw] at h; exact absurd h (by simp)
      | some gm =>
        rw [hw] at h
        obtain ⟨e1, e2, e3, e4, e5, e6, e7⟩ := walkRounds_frame ops fuel node rounds g gm hw
        obtain ⟨f1, f2, f3, f4, f5, f6, f7⟩ := ih gm g' h
        exact ⟨f1.trans e1, f2.trans e2, f3.trans e3, f4.trans e4,
          f5.trans e5, f6.trans e6, f7.trans e7⟩
    · rw [if_neg hs] at h
      exact ih g g' h

/-- C1: each walk step first calls `Traverse()` on the current node, then
draws a uniform float and terminates if the draw is strictly below
`jumpProbability`; otherwise it resolves the outgoing neighbours via the
caller-supplied resolver, terminates if that list is empty, and otherwise
continues from the drawn neighbour (which, for a lawful random source, is
one of the listed neighbours).  In particular a node with zero outgoing
edges always ends the walk immediately after being visited, for every
value of `jumpProbability`. -/
theorem walk_step_characterization {ρ : Type} (ops : RngOps ρ) (fuel : Nat)
    (g : Graph ρ) (node : Nat) (hfuel : 1 ≤ fuel) :
    (traverseFrom ops fuel g node =
      (if (ops.float32 g.rng).1 < g.jumpProbability then
        some { g.traverse node with rng := (ops.float32 g.rng).2 }
      else if g.edgesFor node = [] then
        some { g.traverse node with rng := (ops.float32 g.rng).2 }
      else
        traverseFrom ops (fuel - 1)
          { g.traverse node with
            rng := (ops.intn (ops.float32 g.rng).2 (g.edgesFor node).length).2 }
          ((g.edgesFor node).getD
            (ops.intn (ops.float32 g.rng).2 (g.edgesFor node).length).1 0))) ∧
    (g.edgesFor node = [] →
      traverseFrom ops fuel g node =
        some { g.traverse node with rng := (ops.float32 g.rng).2 }) ∧
    (RngLawful ops → g.edgesFor node ≠ [] →
      (g.edgesFor node).getD
        (ops.intn (ops.float32 g.rng).2 (g.edgesFor node).length).1 0
        ∈ g.edgesFor node) := by
  obtain ⟨f, rfl⟩ : ∃ f, fuel = f + 1 := ⟨fuel - 1, (Nat.succ_pred_eq_of_pos hfuel).symm⟩
  refine ⟨?_, ?_, ?_⟩
  · rw [traverseFrom]
    simp only [Nat.lt_one_iff, List.length_eq_zero, Nat.add_sub_cancel]
    rfl
  · intro hdead
    rw [traverseFrom]
    split
    · rfl
    · have hlen : ((g.traverse node).edgesFor node).length < 1 := by
        show (g.edgesFor node).length < 1
        rw [hdead]
        decide
      rw [if_pos hlen]
      rfl
  · intro hl hne
    have hpos : 0 < (g.edgesFor node).length := List.length_pos.mpr hne
    have hk := hl.intn_lt (ops.float32 g.rng).2 (g.edgesFor node).length hpos
    rw [List.getD_eq_getElem _ 0 hk]
    exact List.getElem_mem hk

/-- Witness for C1: on the dead-end fixture the walk visits the start
node once and stops, even though `jumpProbability = 0`. -/
theorem walk_step_characterization_witness :
    traverseFrom opsW 1 gDead 0 = some { gDead.traverse 0 with rng := () } :=
  (walk_step_characterization opsW 1 gDead 0 (by decide)).2.1 rfl

/-- Running walks from a concatenation of origin lists is sequential
composition. -/
theorem runWalks_append {ρ : Type} (ops : RngOps ρ) (fuel : Nat) :
    ∀ (l1 l2 : List Nat) (g : Graph ρ),
      runWalks ops fuel (l1 ++ l2) g =
        (runWalks ops fuel l1 g).bind (runWalks ops fuel l2) := by
  intro l1
  induction l1 with
  | nil => intro l2 g; rfl
  | cons o rest ih =>
    intro l2 g
    rw [List.cons_append, runWalks, runWalks]
    cases traverseFrom ops fuel g o with
    | none => rfl
    | some g' => exact ih l2 g'

/-- The round loop equals running walks from `rounds` copies of the
node. -/
theorem walkRounds_eq_runWalks {ρ : Type} (ops : RngOps ρ) (fuel node : Nat) :
    ∀ (rounds : Nat) (g : Graph ρ),
      walkRounds ops fuel node rounds g =
        runWalks ops fuel (List.replicate rounds node) g := by
  intro rounds
  induction rounds with
  | zero => intro g; rfl
  | succ r ih =>
    intro g
    rw [walkRounds, List.replicate_succ, runWalks]
    cases traverseFrom ops fuel g node with
    | none => rfl
    | some g' => exact ih g'

/-- The node loop of `Calculate` equals running walks from the origin
sequence prescribed by the spec (starters in collection order, each
repeated `rounds` times). -/
theorem calcNodes_eq_runWalks {ρ : Type} (ops : RngOps ρ) (fuel rounds : Nat) :
    ∀ (l : List Nat) (g : Graph ρ),
      calcNodes ops fuel rounds l g =
        runWalks ops fuel
          ((l.filter g.starter).flatMap (fun n => List.replicate rounds n)) g := by
  intro l
  induction l with
  | nil => intro g; rfl
  | cons node rest ih =>
    intro g
    rw [calcNodes]
    by_cases hs : g.starter node
    · rw [if_pos hs, List.filter_cons_of_pos hs, List.flatMap_cons, runWalks_append,
        walkRounds_eq_runWalks]
      cases hw : runWalks ops fuel (List.replicate rounds node) g with
      | none => rfl
      | some g' =>
        rw [Option.some_bind]
        have hst : g'.starter = g.starter := by
          rw [← walkRounds_eq_runWalks] at hw
          exact (walkRounds_frame ops fuel node rounds g g' hw).2.1
        show calcNodes ops fuel rounds rest g' = _
        rw [ih g', hst]
    · rw [if_neg hs, List.filter_cons_of_neg (by simpa using hs)]
      exact ih g

/-- Multiplicity of a node in a flat-mapped replication. -/
theorem count_flatMap_replicate (rounds : Nat) (n : Nat) :
    ∀ l : List Nat,
      (l.flatMap (fun x => List.replicate rounds x)).count n = rounds * l.count n := by
  intro l
  induction l with
  | nil => simp
  | cons a rest ih =>
    rw [List.flatMap_cons, List.count_append, ih, List.count_cons, List.count_replicate]
    by_cases h : a = n
    · simp [h, Nat.mul_add, Nat.add_comm]
    · simp [h, Ne.symm h]

/-- C2: `Calculate(jumpProbability, roundsPerNode)` is exactly: store the
jump probability, run one walk from each origin of the spec's origin
sequence (starter nodes in collection order, each repeated
`roundsPerNode` times), then set `calculated`.  Consequently no walk ever
originates at a non-starter node, each starter occurring once in the
collection originates exactly `roundsPerNode` walks, and `calculated` is
`true` only on the state produced after all those walks. -/
theorem calculate_starter_rounds_order {ρ : Type} (ops : RngOps ρ)
    (fuel : Nat) (g : Graph ρ) (jp : Rat) (rounds : Int) :
    (Calculate ops fuel g jp rounds =
      Option.map (fun g' => { g' with calculated := true })
        (runWalks ops fuel (walkOrigins g rounds.toNat)
          { g with jumpProbability := jp })) ∧
    (∀ n, g.starter n = false → n ∉ walkOrigins g rounds.toNat) ∧
    (∀ n, g.starter n = true →
      (walkOrigins g rounds.toNat).count n = rounds.toNat * g.nodes.count n) ∧
    (∀ g', Calculate ops fuel g jp rounds = some g' → g'.calculated = true) := by
  have hcore : Calculate ops fuel g jp rounds =
      Option.map (fun g' => { g' with calculated := true })
        (runWalks ops fuel (walkOrigins g rounds.toNat)
          { g with jumpProbability := jp }) := by
    have hmap : Calculate ops fuel g jp rounds =
        Option.map (fun g' => { g' with calculated := true })
          (calcNodes ops fuel rounds.toNat g.nodes { g with jumpProbability := jp }) := rfl
    rw [hmap, calcNodes_eq_runWalks]
    rfl
  refine ⟨hcore, ?_, ?_, ?_⟩
  · intro n hn
    rw [walkOrigins]
    simp only [List.mem_flatMap, List.mem_filter, List.mem_replicate]
    rintro ⟨x, ⟨-, hx⟩, -, rfl⟩
    rw [hn] at hx
    exact Bool.false_ne_true hx
  · intro n hn
    rw [walkOrigins, count_flatMap_replicate, List.count_filter]
    rw [hn]
  · intro g' h
    rw [hcore] at h
    cases hr : runWalks ops fuel (walkOrigins g rounds.toNat)
        { g with jumpProbability := jp } with
    | none => rw [hr] at h; exact absurd h (by simp)
    | some gm =>
      rw [hr, Option.map_some'] at h
      rw [Option.some.injEq] at h
      rw [← h]

/-- Witness for C2: on the two-node fixture (starter `0`, non-starter
`1`) with two rounds, node `1` is not an origin and node `0` originates
exactly two walks. -/
theorem calculate_starter_rounds_order_witness :
    ((1 : Nat) ∉ walkOrigins gMix (Int.toNat 2)) ∧
    (walkOrigins gMix (Int.toNat 2)).count 0 = (Int.toNat 2) * gMix.nodes.count 0 :=
  ⟨(calculate_starter_rounds_order opsW 1 gMix 0 2).2.1 1 rfl,
   (calculate_starter_rounds_order opsW 1 gMix 0 2).2.2.1 0 rfl⟩

/-- The fixture float draw is not below a zero jump probability. -/
theorem halfRat_notLt_zero : ¬ ((1:Rat)/2 < 0) := by norm_num

/-- The fixture float draw is below a jump probability of one. -/
theorem halfRat_lt_one : (1:Rat)/2 < 1 := by norm_num

/-- The summing loop computes the plain total, reduced mod `2^64`. -/
theorem sumLoop_eq (counts : Nat → Nat) :
    ∀ (nodes : List Nat) (acc : Nat),
      sumLoop counts nodes (acc % 2 ^ 64) = (acc + (nodes.map counts).sum) % 2 ^ 64 := by
  intro nodes
  induction nodes with
  | nil => intro acc; simp [sumLoop]
  | cons i l ih =>
    intro acc
    show List.foldl (fun a j => u64 (a + counts j)) (u64 (acc % 2 ^ 64 + counts i)) l =
      (acc + ((i :: l).map counts).sum) % 2 ^ 64
    rw [show u64 (acc % 2 ^ 64 + counts i) = (acc + counts i) % 2 ^ 64 by
      rw [u64, Nat.mod_add_mod]]
    have h2 := ih (acc + counts i)
    rw [sumLoop] at h2
    rw [h2, List.map_cons, List.sum_cons, Nat.add_assoc]

/-- Counterexample to C3 as stated: after the reachable call sequence
`NewGraph`; `Calculate(0, 1)`; `Pagerank`; `Calculate(0, 1)` on a single
dead-end starter node, the graph `gStale3` has `calculated = true`, yet
`Pagerank(node 0, normalized = true)` returns `2` (the counter divided by
the stale cached total `1`) while the node's traversal count divided by
the total traversal count over all nodes is `2 / 2 = 1`. -/
theorem pagerank_total_counterexample :
    gStale3.calculated = true ∧
    (Pagerank gStale3 0 true).1.1 = 2 ∧
    ((gStale3.counts 0 : Rat) / (specTotal gStale3 : Rat)) = 1 ∧
    (2 : Rat) ≠ 1 := by
  refine ⟨?_, ?_, ?_, by norm_num⟩ <;>
    simp [gStale3, gStale2, gStale1, gDead, NewGraph, opsW, Calculate, calcNodes,
      walkRounds, traverseFrom, Graph.traverse, u64, halfRat_notLt_zero, Pagerank,
      sumLoop, specTotal]

/-- C3 (amended): for every node and every graph whose `calculated` flag
is true and whose traversal-total cache is still unpopulated
(`summed = false` and cached `traversals = 0`, as after a first
`Calculate`), `Pagerank(node, true)` returns `node.Traversals()` divided
by the total traversal count over all nodes (taken mod `2^64`), and
`Pagerank(node, false)` returns the node count times `node.Traversals()`
divided by that same total; once the cache is populated the divisor is
the cached value instead, which a later `Calculate` does not refresh. -/
theorem pagerank_value_fresh_cache {ρ : Type} (g : Graph ρ) (node : Nat)
    (hc : g.calculated = true) (hs : g.summed = false) (ht : g.traversals = 0) :
    (Pagerank g node true).1.1 =
      (g.counts node : Rat) / ((specTotal g % 2 ^ 64 : Nat) : Rat) ∧
    (Pagerank g node false).1.1 =
      (g.nodes.length : Rat) * (g.counts node : Rat) /
        ((specTotal g % 2 ^ 64 : Nat) : Rat) := by
  have hsum : sumLoop g.counts g.nodes g.traversals = specTotal g % 2 ^ 64 := by
    rw [ht, show (0 : Nat) = 0 % 2 ^ 64 from rfl, sumLoop_eq, Nat.zero_add, specTotal]
  constructor <;> simp [Pagerank, hc, hs, hsum]

/-- Witness for the amended C3 on the freshly calculated fixture
`gStale1` (one node, one traversal): both scores evaluate against the
true total `1`. -/
theorem pagerank_value_fresh_cache_witness :
    (Pagerank gStale1 0 true).1.1 =
      (gStale1.counts 0 : Rat) / ((specTotal gStale1 % 2 ^ 64 : Nat) : Rat) ∧
    (Pagerank gStale1 0 false).1.1 =
      (gStale1.nodes.length : Rat) * (gStale1.counts 0 : Rat) /
        ((specTotal gStale1 % 2 ^ 64 : Nat) : Rat) := by
  refine pagerank_value_fresh_cache gStale1 0 ?_ ?_ ?_ <;>
    simp [gStale1, gDead, NewGraph, opsW, Calculate, calcNodes, walkRounds,
      traverseFrom, Graph.traverse, u64, halfRat_notLt_zero]

/-- C4: on a graph whose `calculated` flag is false, `Pagerank` returns
the "not yet calculated" error, for both values of `normalized`. -/
theorem pagerank_not_calculated_error {ρ : Type} (g : Graph ρ) (node : Nat)
    (normalized : Bool) (h : g.calculated = false) :
    (Pagerank g node normalized).1.2 = some notCalculatedMsg := by
  simp [Pagerank, h]

/-- Witness for C4 on the freshly constructed fixture, for both values of
`normalized`. -/
theorem pagerank_not_calculated_error_witness :
    (Pagerank gDead 0 true).1.2 = some notCalculatedMsg ∧
    (Pagerank gDead 0 false).1.2 = some notCalculatedMsg :=
  ⟨pagerank_not_calculated_error gDead 0 true rfl,
   pagerank_not_calculated_error gDead 0 false rfl⟩

/-- C5: on a graph whose `calculated` flag is true but whose total
traversal count over all nodes is zero (fresh cache), `Pagerank` returns
no distinct error — the error component is `nil` — and the divisor it
used (the freshly cached total) is the zero total itself. -/
theorem pagerank_zero_total_no_error {ρ : Type} (g : Graph ρ) (node : Nat)
    (normalized : Bool) (hc : g.calculated = true) (hs : g.summed = false)
    (ht : g.traversals = 0) (h0 : specTotal g = 0) :
    (Pagerank g node normalized).1.2 = none ∧
    (Pagerank g node normalized).2.traversals = 0 := by
  have hsum : sumLoop g.counts g.nodes g.traversals = 0 := by
    have h := sumLoop_eq g.counts g.nodes 0
    rw [Nat.zero_mod, Nat.zero_add] at h
    rw [specTotal] at h0
    rw [ht, h, h0, Nat.zero_mod]
  cases normalized <;> simp [Pagerank, hc, hs, hsum]

/-- Witness for C5: `Calculate(0, 0)` ran zero rounds, so the total is
zero, yet the query reports no error. -/
theorem pagerank_zero_total_no_error_witness :
    (Pagerank gZero 0 true).1.2 = none ∧
    (Pagerank gZero 0 true).2.traversals = 0 :=
  pagerank_zero_total_no_error gZero 0 true rfl rfl rfl rfl

/-- C10: the error path of `Pagerank` is atomic — on an uncalculated
graph it returns the value `0` together with the error and the receiver
state completely unchanged (in particular `summed`, `traversals`,
`calculated` and every node counter are as before the call). -/
theorem pagerank_error_path_atomic {ρ : Type} (g : Graph ρ) (node : Nat)
    (normalized : Bool) (h : g.calculated = false) :
    (Pagerank g node normalized).1.1 = 0 ∧ (Pagerank g node normalized).2 = g := by
  simp [Pagerank, h]

/-- Witness for C10 on the freshly constructed fixture. -/
theorem pagerank_error_path_atomic_witness :
    (Pagerank gDead 0 true).1.1 = 0 ∧ (Pagerank gDead 0 true).2 = gDead :=
  pagerank_error_path_atomic gDead 0 true rfl

/-- C6: the first successful `Pagerank` call sets `summed` and caches in
`traversals` the sum of all node counters at that moment; once `summed`
is true a `Pagerank` call leaves both fields unchanged, and a `Calculate`
call never touches either field — in particular a second `Calculate`
leaves the now-stale cache in place. -/
theorem pagerank_sum_cache_once {ρ : Type} (g : Graph ρ) (node : Nat)
    (normalized : Bool) :
    (g.calculated = true → g.summed = false → g.traversals = 0 →
      (Pagerank g node normalized).2.summed = true ∧
      (Pagerank g node normalized).2.traversals = specTotal g % 2 ^ 64) ∧
    (g.calculated = true → g.summed = true →
      (Pagerank g node normalized).2.summed = true ∧
      (Pagerank g node normalized).2.traversals = g.traversals) ∧
    (∀ (ops : RngOps ρ) (fuel : Nat) (jp : Rat) (rounds : Int) (g' : Graph ρ),
      Calculate ops fuel g jp rounds = some g' →
      g'.summed = g.summed ∧ g'.traversals = g.traversals) := by
  refine ⟨?_, ?_, ?_⟩
  · intro hc hs ht
    have h := sumLoop_eq g.counts g.nodes 0
    rw [Nat.zero_mod, Nat.zero_add] at h
    cases normalized <;> simp [Pagerank, hc, hs, ht, h, specTotal]
  · intro hc hs
    cases normalized <;> simp [Pagerank, hc, hs]
  · intro ops fuel jp rounds g' h
    simp only [Calculate] at h
    cases hm : calcNodes ops fuel rounds.toNat g.nodes { g with jumpProbability := jp } with
    | none => rw [hm] at h; exact absurd h (by simp)
    | some gm =>
      rw [hm, Option.map_some'] at h
      rw [Option.some.injEq] at h
      obtain ⟨-, -, -, e4, -, -, e7⟩ := calcNodes_frame ops fuel rounds.toNat g.nodes
        { g with jumpProbability := jp } gm hm
      rw [← h]
      exact ⟨e7, e4⟩

/-- Witness for C6 along the fixture history: the first query on
`gStale1` caches the total `1`; a repeat query on `gStale2` keeps it; the
second `Calculate` (producing `gStale3`) leaves both fields untouched. -/
theorem pagerank_sum_cache_once_witness :
    ((Pagerank gStale1 0 true).2.summed = true ∧
      (Pagerank gStale1 0 true).2.traversals = specTotal gStale1 % 2 ^ 64) ∧
    ((Pagerank gStale2 0 true).2.summed = true ∧
      (Pagerank gStale2 0 true).2.traversals = gStale2.traversals) ∧
    (gStale3.summed = gStale2.summed ∧ gStale3.traversals = gStale2.traversals) := by
  have e1 : gStale1.calculated = true ∧ gStale1.summed = false ∧ gStale1.traversals = 0 := by
    simp [gStale1, gDead, NewGraph, opsW, Calculate, calcNodes, walkRounds, traverseFrom,
      Graph.traverse, u64, halfRat_notLt_zero]
  have e2 : gStale2.calculated = true ∧ gStale2.summed = true := by
    simp [gStale2, gStale1, gDead, NewGraph, opsW, Calculate, calcNodes, walkRounds,
      traverseFrom, Graph.traverse, u64, halfRat_notLt_zero, Pagerank, sumLoop]
  have e3 : Calculate opsW 1 gStale2 0 1 = some gStale3 := by
    rw [gStale3]
    cases hm : Calculate opsW 1 gStale2 0 1 with
    | none =>
      exact absurd hm (by
        simp [gStale2, gStale1, gDead, NewGraph, opsW, Calculate, calcNodes, walkRounds,
          traverseFrom, Graph.traverse, u64, halfRat_notLt_zero, Pagerank, sumLoop])
    | some gm => rfl
  exact ⟨(pagerank_sum_cache_once gStale1 0 true).1 e1.1 e1.2.1 e1.2.2,
    (pagerank_sum_cache_once gStale2 0 true).2.1 e2.1 e2.2,
    (pagerank_sum_cache_once gStale2 0 true).2.2 opsW 1 0 1 gStale3 e3⟩

/-- C9: `Calculate` with a non-positive `RoundsPerNode` starts no walks —
every node counter is unchanged and the random source is untouched — yet
still sets `calculated`, so a subsequent `Pagerank` reports no error (on
a fresh graph this reaches the zero-total division state); the documented
positive-integer precondition is not checked. -/
theorem calculate_nonpositive_rounds {ρ : Type} (ops : RngOps ρ) (fuel : Nat)
    (g : Graph ρ) (jp : Rat) (rounds : Int) (hr : rounds ≤ 0) :
    Calculate ops fuel g jp rounds =
      some { g with jumpProbability := jp, calculated := true } ∧
    (∀ node normalized,
      (Pagerank { g with jumpProbability := jp, calculated := true } node normalized).1.2 =
        none) := by
  have h0 : rounds.toNat = 0 := Int.toNat_of_nonpos hr
  constructor
  · have hnil : ∀ (l : List Nat) (gg : Graph ρ), calcNodes ops fuel 0 l gg = some gg := by
      intro l
      induction l with
      | nil => intro gg; rfl
      | cons node rest ih =>
        intro gg
        rw [calcNodes]
        by_cases hs : gg.starter node
        · rw [if_pos hs]
          exact ih gg
        · rw [if_neg hs]
          exact ih gg
    simp only [Calculate, h0]
    rw [hnil]
    rfl
  · intro node normalized
    cases normalized <;> simp [Pagerank]

/-- Witness for C9: `Calculate(0, -3)` on the fresh fixture starts no
walks but sets `calculated`, and the follow-up query reports no error. -/
theorem calculate_nonpositive_rounds_witness :
    Calculate opsW 1 gDead 0 (-3) =
      some { gDead with jumpProbability := 0, calculated := true } ∧
    (Pagerank { gDead with jumpProbability := 0, calculated := true } 0 true).1.2 = none :=
  ⟨(calculate_nonpositive_rounds opsW 1 gDead 0 (-3) (by norm_num)).1,
   (calculate_nonpositive_rounds opsW 1 gDead 0 (-3) (by norm_num)).2 0 true⟩

/-- With a lawful random source and jump probability at least `1`, a walk
with positive fuel terminates right after its first visit. -/
theorem traverseFrom_jump_one {ρ : Type} (ops : RngOps ρ) (hl : RngLawful ops)
    (fuel : Nat) (g : Graph ρ) (node : Nat)
    (hjp : (1 : Rat) ≤ g.jumpProbability) :
    traverseFrom ops (fuel + 1) g node =
      some { g.traverse node with rng := (ops.float32 g.rng).2 } := by
  rw [traverseFrom]
  split
  · rfl
  · rename_i hcond
    exact absurd (lt_of_lt_of_le (hl.float32_lt_one (g.traverse node).rng) hjp) hcond

/-- With a lawful random source and jump probability at least `1`, the
round loop adds exactly `rounds` to the start node's counter and touches
nothing else (counters are `uint64`, hence the mod). -/
theorem walkRounds_jump_one {ρ : Type} (ops : RngOps ρ) (hl : RngLawful ops)
    (fuel node : Nat) :
    ∀ (rounds : Nat) (g : Graph ρ),
      (1 : Rat) ≤ g.jumpProbability → (∀ i, g.counts i < 2 ^ 64) →
      ∃ g', walkRounds ops (fuel + 1) node rounds g = some g' ∧
        (∀ i, g'.counts i =
          if i = node then (g.counts i + rounds) % 2 ^ 64 else g.counts i) ∧
        g'.nodes = g.nodes ∧ g'.starter = g.starter ∧ g'.edgesFor = g.edgesFor ∧
        g'.traversals = g.traversals ∧ g'.jumpProbability = g.jumpProbability ∧
        g'.calculated = g.calculated ∧ g'.summed = g.summed := by
  intro rounds
  induction rounds with
  | zero =>
    intro g hjp hcnt
    refine ⟨g, rfl, ?_, rfl, rfl, rfl, rfl, rfl, rfl, rfl⟩
    intro i
    by_cases h : i = node
    · rw [if_pos h, Nat.add_zero, Nat.mod_eq_of_lt (hcnt i)]
    · rw [if_neg h]
  | succ r ih =>
    intro g hjp hcnt
    have hc1 : ∀ i, (g.traverse node).counts i =
        if i = node then (g.counts i + 1) % 2 ^ 64 else g.counts i := by
      intro i
      by_cases h : i = node
      · subst h
        simp [Graph.traverse, u64]
      · simp [Graph.traverse, h]
    have hcnt1 : ∀ i,
        ({ g.traverse node with rng := (ops.float32 g.rng).2 } : Graph ρ).counts i <
          2 ^ 64 := by
      intro i
      show (g.traverse node).counts i < 2 ^ 64
      rw [hc1 i]
      by_cases h : i = node
      · rw [if_pos h]
        exact Nat.mod_lt _ (by norm_num)
      · rw [if_neg h]
        exact hcnt i
    obtain ⟨g', hw, hcn, hn, hs, he, ht, hj, hca, hsu⟩ :=
      ih { g.traverse node with rng := (ops.float32 g.rng).2 } hjp hcnt1
    refine ⟨g', ?_, ?_, hn, hs, he, ht, hj, hca, hsu⟩
    · rw [walkRounds, traverseFrom_jump_one ops hl fuel g node hjp]
      exact hw
    · intro i
      rw [hcn i]
      by_cases h : i = node
      · subst h
        rw [if_pos rfl, if_pos rfl]
        show ((g.traverse i).counts i + r) % 2 ^ 64 = _
        rw [hc1 i, if_pos rfl, Nat.mod_add_mod]
        congr 1
        omega
      · rw [if_neg h, if_neg h]
        show (g.traverse node).counts i = g.counts i
        rw [hc1 i, if_neg h]

/-- C7: on the 3-cycle `0 → 1 → 2 → 0` with all three nodes starters and
fresh zero counters, `Calculate(jumpProbability = 1.0, roundsPerNode =
10)` with any seed (any lawful random source) terminates every walk
after its first step, so every node records exactly `10` traversals, and
`Pagerank(node, normalized = true)` then returns `1/3` for every node,
with no error. -/
theorem three_cycle_jump_one {ρ : Type} (ops : RngOps ρ) (hl : RngLawful ops)
    (seed : ρ) (fuel : Nat) :
    ∃ g', Calculate ops (fuel + 1) (gCycle seed) 1 10 = some g' ∧
      g'.counts 0 = 10 ∧ g'.counts 1 = 10 ∧ g'.counts 2 = 10 ∧
      (∀ i, i ∈ (gCycle seed).nodes →
        (Pagerank g' i true).1.1 = 1/3 ∧ (Pagerank g' i true).1.2 = none) := by
  have hjp0 : (1 : Rat) ≤
      ({ gCycle seed with jumpProbability := 1 } : Graph ρ).jumpProbability :=
    le_refl 1
  have hcnt0 : ∀ i,
      ({ gCycle seed with jumpProbability := 1 } : Graph ρ).counts i < 2 ^ 64 := by
    intro i
    show (0 : Nat) < 2 ^ 64
    norm_num
  obtain ⟨g1, hw1, hc1, hn1, hs1, he1, ht1, hj1, hca1, hsu1⟩ :=
    walkRounds_jump_one ops hl fuel 0 10
      { gCycle seed with jumpProbability := 1 } hjp0 hcnt0
  have hjp1 : (1 : Rat) ≤ g1.jumpProbability := le_of_le_of_eq hjp0 hj1.symm
  have hcnt1 : ∀ i, g1.counts i < 2 ^ 64 := by
    intro i
    rw [hc1 i]
    by_cases h : i = 0
    · rw [if_pos h]; exact Nat.mod_lt _ (by norm_num)
    · rw [if_neg h]; exact hcnt0 i
  obtain ⟨g2, hw2, hc2, hn2, hs2, he2, ht2, hj2, hca2, hsu2⟩ :=
    walkRounds_jump_one ops hl fuel 1 10 g1 hjp1 hcnt1
  have hjp2 : (1 : Rat) ≤ g2.jumpProbability := le_of_le_of_eq hjp1 hj2.symm
  have hcnt2 : ∀ i, g2.counts i < 2 ^ 64 := by
    intro i
    rw [hc2 i]
    by_cases h : i = 1
    · rw [if_pos h]; exact Nat.mod_lt _ (by norm_num)
    · rw [if_neg h]; exact hcnt1 i
  obtain ⟨g3, hw3, hc3, hn3, hs3, he3, ht3, hj3, hca3, hsu3⟩ :=
    walkRounds_jump_one ops hl fuel 2 10 g2 hjp2 hcnt2
  have hchain : calcNodes ops (fuel + 1) 10 [0, 1, 2]
      { gCycle seed with jumpProbability := 1 } = some g3 := by
    rw [calcNodes,
      if_pos (show ({ gCycle seed with jumpProbability := 1 } : Graph ρ).starter 0 = true
        from rfl), hw1]
    show calcNodes ops (fuel + 1) 10 [1, 2] g1 = some g3
    rw [calcNodes, if_pos (show g1.starter 1 = true by rw [hs1]; rfl), hw2]
    show calcNodes ops (fuel + 1) 10 [2] g2 = some g3
    rw [calcNodes, if_pos (show g2.starter 2 = true by rw [hs2, hs1]; rfl), hw3]
    show calcNodes ops (fuel + 1) 10 ([] : List Nat) g3 = some g3
    rfl
  have hCalc : Calculate ops (fuel + 1) (gCycle seed) 1 10 =
      some { g3 with calculated := true } := by
    have hx : calcNodes ops (fuel + 1) (Int.toNat (10 : Int)) (gCycle seed).nodes
        { gCycle seed with jumpProbability := 1 } = some g3 := hchain
    exact (congrArg (Option.map
      (fun gg : Graph ρ => { gg with calculated := true })) hx).trans rfl
  have v0 : g3.counts 0 = 10 := by
    rw [hc3 0, if_neg (by decide : ¬ (0 : Nat) = 2), hc2 0,
      if_neg (by decide : ¬ (0 : Nat) = 1), hc1 0, if_pos rfl]
    show ((0 : Nat) + 10) % 2 ^ 64 = 10
    norm_num
  have v1 : g3.counts 1 = 10 := by
    rw [hc3 1, if_neg (by decide : ¬ (1 : Nat) = 2), hc2 1, if_pos rfl,
      hc1 1, if_neg (by decide : ¬ (1 : Nat) = 0)]
    show (((gCycle seed).counts 1 : Nat) + 10) % 2 ^ 64 = 10
    show ((0 : Nat) + 10) % 2 ^ 64 = 10
    norm_num
  have v2 : g3.counts 2 = 10 := by
    rw [hc3 2, if_pos rfl, hc2 2, if_neg (by decide : ¬ (2 : Nat) = 1),
      hc1 2, if_neg (by decide : ¬ (2 : Nat) = 0)]
    show ((0 : Nat) + 10) % 2 ^ 64 = 10
    norm_num
  have hsummed : g3.summed = false := by rw [hsu3, hsu2, hsu1]; rfl
  have htrav : g3.traversals = 0 := by rw [ht3, ht2, ht1]; rfl
  have hnodes : g3.nodes = [0, 1, 2] := by rw [hn3, hn2, hn1]; rfl
  have hdiv : sumLoop g3.counts g3.nodes g3.traversals = 30 := by
    rw [hnodes, htrav, sumLoop]
    show u64 (u64 (u64 (0 + g3.counts 0) + g3.counts 1) + g3.counts 2) = 30
    rw [v0, v1, v2]
    norm_num [u64]
  refine ⟨{ g3 with calculated := true }, hCalc, v0, v1, v2, ?_⟩
  intro i hi
  have hi' : i = 0 ∨ i = 1 ∨ i = 2 := by
    have hm : i ∈ [0, 1, 2] := hi
    simpa using hm
  have hci : g3.counts i = 10 := by
    rcases hi' with h | h | h
    · rw [h, v0]
    · rw [h, v1]
    · rw [h, v2]
  constructor
  · norm_num [Pagerank, hsummed, hdiv, hci]
  · norm_num [Pagerank, hsummed, hdiv]

/-- Witness for C7 at the concrete fixture random source, trivial seed
and minimal fuel. -/
theorem three_cycle_jump_one_witness :
    ∃ g', Calculate opsW 1 (gCycle ()) 1 10 = some g' ∧
      g'.counts 0 = 10 ∧ g'.counts 1 = 10 ∧ g'.counts 2 = 10 ∧
      (∀ i, i ∈ (gCycle ()).nodes →
        (Pagerank g' i true).1.1 = 1/3 ∧ (Pagerank g' i true).1.2 = none) :=
  three_cycle_jump_one opsW opsW_lawful () 0

/-- C8: two `Graph` instances constructed with the same seed, over the
same node collection, starter flags, edge resolver and initial counters,
and given the same `Calculate(jumpProbability, roundsPerNode)` arguments,
produce identical traversal counts for every corresponding node. -/
theorem calculate_deterministic {ρ : Type} (ops : RngOps ρ) (fuel : Nat)
    (seed : ρ) (edges : Nat → List Nat) (nodes : List Nat)
    (starter : Nat → Bool) (counts : Nat → Nat) (jp : Rat) (rounds : Int)
    (ga gb ga' gb' : Graph ρ)
    (h1 : ga = NewGraph seed edges nodes starter counts)
    (h2 : gb = NewGraph seed edges nodes starter counts)
    (hc1 : Calculate ops fuel ga jp rounds = some ga')
    (hc2 : Calculate ops fuel gb jp rounds = some gb') :
    ∀ node, ga'.counts node = gb'.counts node := by
  subst h1
  subst h2
  rw [hc1, Option.some.injEq] at hc2
  rw [hc2]
  intro node
  rfl

/-- Witness for C8: two identically seeded copies of the dead-end fixture
agree on node `0` after `Calculate(0, 1)`. -/
theorem calculate_deterministic_witness :
    gStale1.counts 0 = gStale1.counts 0 := by
  have hc : Calculate opsW 1 gDead 0 1 = some gStale1 := by
    rw [gStale1]
    cases hm : Calculate opsW 1 gDead 0 1 with
    | none =>
      exact absurd hm (by
        simp [gDead, NewGraph, opsW, Calculate, calcNodes, walkRounds, traverseFrom,
          Graph.traverse, u64, halfRat_notLt_zero])
    | some gm => rfl
  exact calculate_deterministic opsW 1 () (fun _ => []) [0] (fun _ => true)
    (fun _ => 0) 0 1 gDead gDead gStale1 gStale1 rfl rfl hc hc 0
